import Mathlib

/-!
Verification development for the medicinedb repository.

The Python sources are shallowly embedded:
* `src/src/models.py` — the `Medicine` record (pydantic model).
* `src/src/utils.py` — the SQLite record store (`add_medicine`,
  `get_all_medicines`, schema creation, `export_to_csv`); the database is
  modelled as in-memory lists of rows, with the `otc` boolean stored as an
  INTEGER 0/1 exactly as the code writes it.
* `src/src/agent_runner.py` — the result normalizer `_process_result` and the
  task builder `_build_task`.  Python runtime values flowing through the
  normalizer are modelled by the inductive type `Json`; Python exceptions are
  modelled with `Except PyErr`.
* `src/app.py` — the query-endpoint selection of `run_mcp_query` and the
  `Medicine` construction inside `search_medicine_info`.
* `src/src/export_to_prolog.py` — the Prolog fact emitter.

Python `float` values are modelled as `ℚ`: every price in this development is
only stored, compared and printed (no float arithmetic happens in the code),
and the printing model mirrors `str(float)` on the short decimal literals the
program actually handles.
-/

/-! ### Generic character/string helpers -/

/-- `charsStartWith needle hay` is true when `needle` is a leading segment of
`hay` (character lists). -/
def charsStartWith : List Char → List Char → Bool
  | [], _ => true
  | _ :: _, [] => false
  | a :: as, b :: bs => a = b && charsStartWith as bs

/-- `charsContain needle hay` is true when `needle` occurs as a contiguous
substring of `hay`; this models Python's `needle in hay` on `str`. -/
def charsContain (needle : List Char) : List Char → Bool
  | [] => needle.isEmpty
  | b :: bs => charsStartWith needle (b :: bs) || charsContain needle bs

/-- Substring containment on `String`, modelling Python's `in` operator. -/
def strContains (hay needle : String) : Bool :=
  charsContain needle.toList hay.toList

/-- Python's `str.upper()` (the sources only feed it ASCII SQL text). -/
def pyUpper (s : String) : String :=
  String.mk (s.toList.map Char.toUpper)

/-! ### Python runtime values recovered from JSON

`Json` models the Python values that `json.loads` can return and that flow
through `_process_result`: `None`, booleans, numbers, strings, lists and
dicts (a dict is a key-ordered association list with unique keys, as built by
`json.loads`). -/

inductive Json where
  | null
  | bool (b : Bool)
  | num (q : ℚ)
  | str (s : String)
  | arr (elems : List Json)
  | obj (fields : List (String × Json))

-- Python `==` restricted to the values of `Json` (used by the `in`
-- membership test on lists; a Python `str` is `==`-equal only to an equal
-- `str`, which is all this development ever compares).
mutual
def Json.beq : Json → Json → Bool
  | .null, .null => true
  | .bool a, .bool b => a = b
  | .num a, .num b => a = b
  | .str a, .str b => a = b
  | .arr xs, .arr ys => beqJsonList xs ys
  | .obj xs, .obj ys => beqFieldList xs ys
  | _, _ => false
def beqJsonList : List Json → List Json → Bool
  | [], [] => true
  | a :: as, b :: bs => Json.beq a b && beqJsonList as bs
  | _, _ => false
def beqFieldList : List (String × Json) → List (String × Json) → Bool
  | [], [] => true
  | (k, v) :: as, (k2, v2) :: bs => k = k2 && Json.beq v v2 && beqFieldList as bs
  | _, _ => false
end

/-- First-match lookup in a dict's association list (`data[key]` / `in`). -/
def lookupField : List (String × Json) → String → Option Json
  | [], _ => none
  | (k, v) :: rest, key => if k = key then some v else lookupField rest key

/-- Python dict assignment `d[key] = v`: replace in place when the key exists,
append at the end otherwise (dicts preserve insertion order). -/
def setField : List (String × Json) → String → Json → List (String × Json)
  | [], k, v => [(k, v)]
  | (k2, v2) :: rest, k, v =>
    if k2 = k then (k2, v) :: rest else (k2, v2) :: setField rest k v

/-- Python `del d[key]`: drop the binding of `key`. -/
def delField : List (String × Json) → String → List (String × Json)
  | [], _ => []
  | (k2, v2) :: rest, k => if k2 = k then rest else (k2, v2) :: delField rest k

/-- `key in d` for a dict. -/
def hasKey (fs : List (String × Json)) (k : String) : Bool :=
  (lookupField fs k).isSome

/-- Python truthiness of the values of `Json` (`if data:` / `.get("success")`
checks in `_process_result`). -/
def jsonTruthy : Json → Bool
  | .null => false
  | .bool b => b
  | .num q => q ≠ 0
  | .str s => s ≠ ""
  | .arr xs => !xs.isEmpty
  | .obj fs => !fs.isEmpty

/-! ### A model of `json.loads`

A recursive-descent parser over the character list, faithful to the JSON
grammar accepted by Python's `json.loads` (strict mode: rejects raw control
characters in strings, trailing data, leading zeros; on duplicate object keys
the later binding wins while the key keeps its first position, as in
`dict(pairs)`).  The nonstandard `NaN`/`Infinity` extension is not modelled —
no claim involves it.  Numbers are read exactly into `ℚ`. -/

def isWsChar (c : Char) : Bool :=
  c = ' ' || c = '\t' || c = '\n' || c = '\r'

def skipWs : List Char → List Char
  | [] => []
  | c :: rest => if isWsChar c then skipWs rest else c :: rest

def isDigitChar (c : Char) : Bool := '0' ≤ c && c ≤ '9'

def hexVal (c : Char) : Option Nat :=
  if '0' ≤ c && c ≤ '9' then some (c.toNat - 48)
  else if 'a' ≤ c && c ≤ 'f' then some (c.toNat - 87)
  else if 'A' ≤ c && c ≤ 'F' then some (c.toNat - 55)
  else none

/-- Body of a JSON string literal, after the opening quote; returns the
decoded characters and the remainder after the closing quote. -/
def parseStrChars : List Char → Option (List Char × List Char)
  | [] => none
  | '"' :: rest => some ([], rest)
  | '\\' :: 'u' :: a :: b :: c :: d :: rest =>
    match hexVal a, hexVal b, hexVal c, hexVal d with
    | some ha, some hb, some hc, some hd =>
      (parseStrChars rest).map fun (cs, r) =>
        (Char.ofNat (((ha * 16 + hb) * 16 + hc) * 16 + hd) :: cs, r)
    | _, _, _, _ => none
  | '\\' :: e :: rest =>
    let esc : Option Char :=
      if e = '"' then some '"'
      else if e = '\\' then some '\\'
      else if e = '/' then some '/'
      else if e = 'b' then some (Char.ofNat 8)
      else if e = 'f' then some (Char.ofNat 12)
      else if e = 'n' then some '\n'
      else if e = 'r' then some '\r'
      else if e = 't' then some '\t'
      else none
    match esc with
    | some ch => (parseStrChars rest).map fun (cs, r) => (ch :: cs, r)
    | none => none
  | c :: rest =>
    if c.toNat < 32 then none
    else (parseStrChars rest).map fun (cs, r) => (c :: cs, r)

def digitsToNat (ds : List Char) : Nat :=
  ds.foldl (fun a c => a * 10 + (c.toNat - 48)) 0

/-- Fractional part of a JSON number (empty when there is no `.`). -/
def parseFrac (cs : List Char) : Option (List Char × List Char) :=
  match cs with
  | '.' :: r =>
    let p := r.span isDigitChar
    if p.1.isEmpty then none else some p
  | _ => some ([], cs)

/-- Digits of a JSON exponent, after the `e`/`E` marker: a negative-sign flag
and the exponent magnitude. -/
def parseExpDigits (cs : List Char) : Option ((Bool × Nat) × List Char) :=
  let (negExp, r) : Bool × List Char := match cs with
    | '+' :: r => (false, r)
    | '-' :: r => (true, r)
    | _ => (false, cs)
  let p := r.span isDigitChar
  if p.1.isEmpty then none else some ((negExp, digitsToNat p.1), p.2)

/-- Exponent part of a JSON number (0 when there is no `e`/`E`). -/
def parseExp (cs : List Char) : Option ((Bool × Nat) × List Char) :=
  match cs with
  | 'e' :: r => parseExpDigits r
  | 'E' :: r => parseExpDigits r
  | _ => some ((false, 0), cs)

/-- JSON number (int or float), read exactly into `ℚ` (assembled with
integer arithmetic: mantissa over a power of ten). -/
def parseNumber (cs : List Char) : Option (ℚ × List Char) :=
  let (neg, cs1) : Bool × List Char := match cs with
    | '-' :: r => (true, r)
    | _ => (false, cs)
  let (ds, r1) := cs1.span isDigitChar
  if ds.isEmpty then none
  else if 1 < ds.length && ds.headD '0' = '0' then none
  else
    match parseFrac r1 with
    | none => none
    | some (fds, r2) =>
      match parseExp r2 with
      | none => none
      | some ((negExp, ev), r3) =>
        let m : Nat := digitsToNat (ds ++ fds)
        let im : Int := if neg then -(m : Int) else (m : Int)
        let den : Nat := 10 ^ fds.length
        let q : ℚ :=
          if negExp then mkRat im (den * 10 ^ ev)
          else mkRat (im * (10 ^ ev : Nat)) den
        some (q, r3)

-- Mutually recursive value/array/object parsers, with a step-count fuel that
-- any input's length bounds.
mutual
def parseValue : Nat → List Char → Option (Json × List Char)
  | 0, _ => none
  | f + 1, cs =>
    match skipWs cs with
    | [] => none
    | '\x7b' :: rest =>
      (match skipWs rest with
       | '\x7d' :: r2 => some (.obj [], r2)
       | _ => parseObjFields f rest [])
    | '[' :: rest =>
      (match skipWs rest with
       | ']' :: r2 => some (.arr [], r2)
       | _ => parseArrElems f rest [])
    | '"' :: rest =>
      (parseStrChars rest).map fun (cs2, r) => (.str (String.mk cs2), r)
    | 't' :: 'r' :: 'u' :: 'e' :: rest => some (.bool true, rest)
    | 'f' :: 'a' :: 'l' :: 's' :: 'e' :: rest => some (.bool false, rest)
    | 'n' :: 'u' :: 'l' :: 'l' :: rest => some (.null, rest)
    | c :: rest =>
      if c = '-' || isDigitChar c then
        (parseNumber (c :: rest)).map fun (q, r) => (.num q, r)
      else none
def parseObjFields : Nat → List Char → List (String × Json) →
    Option (Json × List Char)
  | 0, _, _ => none
  | f + 1, cs, acc =>
    match skipWs cs with
    | '"' :: rest =>
      (match parseStrChars rest with
       | none => none
       | some (keyChars, r1) =>
         match skipWs r1 with
         | ':' :: r2 =>
           (match parseValue f r2 with
            | none => none
            | some (v, r3) =>
              let acc2 := setField acc (String.mk keyChars) v
              match skipWs r3 with
              | ',' :: r4 => parseObjFields f r4 acc2
              | '\x7d' :: r4 => some (.obj acc2, r4)
              | _ => none)
         | _ => none)
    | _ => none
def parseArrElems : Nat → List Char → List Json → Option (Json × List Char)
  | 0, _, _ => none
  | f + 1, cs, acc =>
    match parseValue f cs with
    | none => none
    | some (v, r1) =>
      match skipWs r1 with
      | ',' :: r2 => parseArrElems f r2 (acc ++ [v])
      | ']' :: r2 => some (.arr (acc ++ [v]), r2)
      | _ => none
end

/-- `json.loads`: parse a complete JSON document; trailing data (other than
whitespace) is an error, as in Python. -/
def jsonLoads (s : String) : Option Json :=
  let cs := s.toList
  match parseValue (cs.length + 1) cs with
  | some (v, rest) => if (skipWs rest).isEmpty then some v else none
  | none => none

/-! ### The regex step of `_process_result`

`re.search(r'\x7b.*\x7d', text, re.DOTALL)` with a greedy `.*` matches from
the first opening brace to the last closing brace of the whole text, provided
some closing brace follows the first opening one. -/

/-- Index of the last occurrence of `c` in `cs`. -/
def findLastIdx (c : Char) (cs : List Char) : Option Nat :=
  match cs.reverse.findIdx? (fun x => x = c) with
  | some k => some (cs.length - 1 - k)
  | none => none

/-- The substring grabbed by `re.search(r'\x7b.*\x7d', s, re.DOTALL)`. -/
def extractJsonSubstr (s : String) : Option String :=
  let cs := s.toList
  match cs.findIdx? (fun c => c = '\x7b'), findLastIdx '\x7d' cs with
  | some i, some j =>
    if i < j then some (String.mk ((cs.drop i).take (j - i + 1))) else none
  | _, _ => none

/-- One candidate text's JSON recovery, exactly as lines 73-80 of
`agent_runner.py` do it: parse the brace-delimited substring when the regex
matches, otherwise parse the entire text; `none` models the
`json.JSONDecodeError` cases. -/
def decodeCandidate (t : String) : Option Json :=
  match extractJsonSubstr t with
  | some sub => jsonLoads sub
  | none => jsonLoads t

/-! ### The agent-run result and the normalizer `_process_result` -/

/-- Python exceptions that the modelled code can raise. -/
inductive PyErr where
  | typeError
  | keyError
  | attributeError
  | validationError
deriving DecidableEq

/-- One step of an agent run.  `action = none` models a step object without an
`action` attribute (or with a non-dict one collapsed into any non-`.obj`
`Json`); otherwise the attribute's value. -/
structure AgentStep where
  action : Option Json

/-- The opaque agent-run result.
`finalResult = none`: the result has no callable `final_result` attribute;
`some (.error e)`: calling it raises; `some (.ok none)`: it returns `None`;
`some (.ok (some s))`: it returns the string `s`.
`steps = none`: the result is not iterable; `some l`: iterating yields `l`. -/
structure AgentResult where
  finalResult : Option (Except PyErr (Option String))
  steps : Option (List AgentStep)

/-- Lines 51-62 of `agent_runner.py`: the final-text extraction path.  A
decode failure is swallowed (logged) and leaves `data = None`, modelled as
`Json.null`. -/
def finalTextData (r : AgentResult) : Except PyErr Json :=
  match r.finalResult with
  | none => .ok .null
  | some (.error e) => .error e
  | some (.ok none) => .ok .null
  | some (.ok (some s)) =>
    if s = "" then .ok .null
    else
      match extractJsonSubstr s with
      | none => .ok .null
      | some sub =>
        match jsonLoads sub with
        | some v => .ok v
        | none => .ok .null

/-- Lines 65-83 of `agent_runner.py`: scan the steps for a `done` action with
truthy `success` and a `text` entry; the first successful parse breaks the
loop, a decode failure continues with the next step, and `re.search` on a
non-string `text` raises `TypeError`. -/
def stepScan : List AgentStep → Except PyErr Json
  | [] => .ok .null
  | st :: rest =>
    match st.action with
    | some (.obj o) =>
      (match lookupField o "done" with
       | some (.obj d) =>
         if jsonTruthy ((lookupField d "success").getD .null) then
           match lookupField d "text" with
           | some (.str t) =>
             (match decodeCandidate t with
              | some v => .ok v
              | none => stepScan rest)
           | some _ => .error .typeError
           | none => stepScan rest
         else stepScan rest
       | some _ => stepScan rest
       | none => stepScan rest)
    | _ => stepScan rest

/-! Lines 86-106 of `agent_runner.py`: the field-renaming blocks.  Each block
is one `if` statement; the non-dict branches mirror what the Python operators
`in`, `[...]`, `[...] = ...` and `del` do on that runtime type (`in` on a
list is membership, on a string substring search, and raises `TypeError` on
scalars; indexing a list or string with a string key raises `TypeError`). -/

/-- The strings of a JSON list, as `", ".join` consumes them; a non-string
element raises `TypeError`. -/
def strElems : List Json → Except PyErr (List String)
  | [] => .ok []
  | .str s :: rest =>
    (match strElems rest with
     | .ok ss => .ok (s :: ss)
     | .error e => .error e)
  | _ :: _ => .error .typeError

/-- Python `sep.join(xs)` on a recovered JSON list. -/
def joinStrElems (sep : String) (xs : List Json) : Except PyErr String :=
  match strElems xs with
  | .ok ss => .ok (String.intercalate sep ss)
  | .error e => .error e

/-- `if srcKey in data and isinstance(data[srcKey], list): data[dstKey] =
sep.join(data[srcKey]); del data[srcKey]` — the common shape of the
`brand_names` and `dosage_forms` blocks. -/
def listJoinRenameBlock (srcKey dstKey sep : String) (data : Json) :
    Except PyErr Json :=
  match data with
  | .obj fs =>
    (match lookupField fs srcKey with
     | some (.arr xs) =>
       (match joinStrElems sep xs with
        | .ok j => .ok (.obj (delField (setField fs dstKey (.str j)) srcKey))
        | .error e => .error e)
     | _ => .ok (.obj fs))
  | .arr xs =>
    if xs.any (fun x => Json.beq x (.str srcKey)) then .error .typeError
    else .ok (.arr xs)
  | .str s =>
    if strContains s srcKey then .error .typeError else .ok (.str s)
  | _ => .error .typeError

/-- `if "brand_names" in data and isinstance(data["brand_names"], list):
data["brand"] = ", ".join(data["brand_names"]); del data["brand_names"]`. -/
def brandNamesBlock : Json → Except PyErr Json :=
  listJoinRenameBlock "brand_names" "brand" ", "

/-- Same shape for `dosage_forms` → `dosage` with a `"; "` join. -/
def dosageFormsBlock : Json → Except PyErr Json :=
  listJoinRenameBlock "dosage_forms" "dosage" "; "

/-- `if "drug_class" in data: data["category"] = data["drug_class"];
del data["drug_class"]`. -/
def drugClassBlock (data : Json) : Except PyErr Json :=
  match data with
  | .obj fs =>
    (match lookupField fs "drug_class" with
     | some v => .ok (.obj (delField (setField fs "category" v) "drug_class"))
     | none => .ok (.obj fs))
  | .arr xs =>
    if xs.any (fun x => Json.beq x (.str "drug_class")) then .error .typeError
    else .ok (.arr xs)
  | .str s =>
    if strContains s "drug_class" then .error .typeError else .ok (.str s)
  | _ => .error .typeError

/-- `if "generic_name" in data: (backfill "name" when absent);
del data["generic_name"]`.  On a list or string that passes the `in` test the
subsequent indexing or `del` raises `TypeError` either way. -/
def genericNameBlock (data : Json) : Except PyErr Json :=
  match data with
  | .obj fs =>
    (match lookupField fs "generic_name" with
     | some v =>
       if hasKey fs "name" then .ok (.obj (delField fs "generic_name"))
       else .ok (.obj (delField (setField fs "name" v) "generic_name"))
     | none => .ok (.obj fs))
  | .arr xs =>
    if xs.any (fun x => Json.beq x (.str "generic_name")) then .error .typeError
    else .ok (.arr xs)
  | .str s =>
    if strContains s "generic_name" then .error .typeError else .ok (.str s)
  | _ => .error .typeError

/-- The whole renaming pass (lines 86-106), in source order. -/
def processData (data : Json) : Except PyErr Json :=
  match brandNamesBlock data with
  | .error e => .error e
  | .ok d1 =>
    match dosageFormsBlock d1 with
    | .error e => .error e
    | .ok d2 =>
      match drugClassBlock d2 with
      | .error e => .error e
      | .ok d3 => genericNameBlock d3

/-- The extraction phase of `_process_result`: final-text path first, then —
only when `data is None` — the step scan (when the result is iterable). -/
def extractData (r : AgentResult) : Except PyErr Json :=
  match finalTextData r with
  | .error e => .error e
  | .ok d =>
    match d with
    | .null =>
      (match r.steps with
       | some steps => stepScan steps
       | none => .ok .null)
    | _ => .ok d

/-- The body of `_process_result`'s outer `try`: extraction, then — when the
recovered data is truthy — the renaming pass; `return None` otherwise. -/
def processBody (r : AgentResult) : Except PyErr Json :=
  match extractData r with
  | .error e => .error e
  | .ok data => if jsonTruthy data then processData data else .ok .null

/-- `_process_result` itself: the outer `except Exception` handler logs any
escaped exception and returns `None`. -/
def process_result (r : AgentResult) : Json :=
  match processBody r with
  | .ok v => v
  | .error _ => .null

/-- The constant part of the task f-string before the interpolated name. -/
def taskTextA : String := "\n        Navigate to https://drugs.com/"

/-- The constant part of the task f-string after the interpolated name. -/
def taskTextB : String :=
  ".html.\n        wait 2 seconds\n        Extract the following information from the page:\n        - Generic name\n        - Brand names\n        - Dosage forms\n        - Drug class\n        Format the extracted information into a structured JSON object with the following keys:\n        \x7b\n            \"generic_name\": \"\",\n            \"brand_names\": \"\",\n            \"dosage_forms\": \"\",\n            \"drug_class\": \"\"\n        \x7d\n        If any of the fields are not available, use \"N/A\" as the value.\n        "

/-- `_build_task` (lines 14-33 of `agent_runner.py`): the f-string handed to
the browser agent, with the medicine name interpolated. -/
def build_task (medicine_name : String) : String :=
  taskTextA ++ medicine_name ++ taskTextB

/-! ### The `Medicine` data model (`src/src/models.py`) and the record store
(`src/src/utils.py`)

The SQLite `medicines` table is a list of `MedicineRow` (surrogate ids play no
role in any claim and are omitted); `otc` is stored as an INTEGER exactly as
`add_medicine` writes it (`1 if medicine.otc else 0`) and read back through
Python's `bool(...)` (nonzero is true). -/

structure Medicine where
  name : String
  brand : String
  price : ℚ
  dosage : String
  form : String
  otc : Bool
  description : String
  side_effects : String
  category : String
  date_added : String
deriving DecidableEq

structure MedicineDatabase where
  medicines : List Medicine
deriving DecidableEq

/-- A persisted row of the `medicines` table. -/
structure MedicineRow where
  name : String
  brand : String
  price : ℚ
  dosage : String
  form : String
  otc : Int
  description : String
  side_effects : String
  category : String
  date_added : String
deriving DecidableEq

/-- The tuple `add_medicine` binds into its INSERT statement. -/
def encodeMedicineRow (m : Medicine) : MedicineRow :=
  { name := m.name, brand := m.brand, price := m.price, dosage := m.dosage,
    form := m.form, otc := if m.otc then 1 else 0,
    description := m.description, side_effects := m.side_effects,
    category := m.category, date_added := m.date_added }

/-- The `Medicine(...)` construction in `get_all_medicines`' row loop, with
`otc=bool(row['otc'])`. -/
def decodeMedicineRow (r : MedicineRow) : Medicine :=
  { name := r.name, brand := r.brand, price := r.price, dosage := r.dosage,
    form := r.form, otc := r.otc != 0,
    description := r.description, side_effects := r.side_effects,
    category := r.category, date_added := r.date_added }

/-- `add_medicine`: appends one encoded row to the `medicines` table. -/
def add_medicine (m : Medicine) (db : List MedicineRow) : List MedicineRow :=
  db ++ [encodeMedicineRow m]

/-- `get_all_medicines`: full scan mapping every row back to a `Medicine`. -/
def get_all_medicines (db : List MedicineRow) : MedicineDatabase :=
  ⟨db.map decodeMedicineRow⟩

/-- A persisted row of the `insights` table. -/
structure InsightRow where
  insight : String
  category : String
  date_created : String
deriving DecidableEq

/-- The database file's state: each table is `none` while it does not exist,
`some rows` once created. -/
structure SqliteState where
  medicinesTable : Option (List MedicineRow)
  insightsTable : Option (List InsightRow)

/-- `CREATE TABLE IF NOT EXISTS`: creates an empty table only when absent. -/
def createTableIfAbsent (t : Option (List α)) : Option (List α) :=
  some (t.getD [])

/-- `initialize_database` (`src/src/utils.py`, lines 8-41): ensure both tables
exist; no other statement touches data. -/
def init_database (s : SqliteState) : SqliteState :=
  { medicinesTable := createTableIfAbsent s.medicinesTable,
    insightsTable := createTableIfAbsent s.insightsTable }

/-! ### `search_medicine_info`'s record construction (`src/app.py` 136-156)

`result.get(key, default)` works on the dict the normalizer returned (a
non-dict truthy result has no `.get` and raises `AttributeError`); the
pydantic `Medicine(...)` constructor then requires the four looked-up values
to be strings (`validationError` models pydantic's rejection).  `today`
stands for `datetime.now().strftime("%Y-%m-%d")` at normalization time. -/

def asStr : Json → Except PyErr String
  | .str s => .ok s
  | _ => .error .validationError

def build_medicine (result : Json) (medicine_name today : String) :
    Except PyErr Medicine :=
  match result with
  | .obj fs =>
    (match asStr ((lookupField fs "name").getD (.str medicine_name)) with
     | .error e => .error e
     | .ok name =>
       match asStr ((lookupField fs "brand").getD (.str "N/A")) with
       | .error e => .error e
       | .ok brand =>
         match asStr ((lookupField fs "category").getD (.str "N/A")) with
         | .error e => .error e
         | .ok category =>
           match asStr ((lookupField fs "dosage").getD (.str "N/A")) with
           | .error e => .error e
           | .ok dosage =>
             .ok { name := name, brand := brand, price := 0, dosage := dosage,
                   form := "Various", otc := false,
                   description := "Information extracted from drugs.com: " ++
                     name ++ " in category " ++ category,
                   side_effects := "Please consult your healthcare provider for side effects information.",
                   category := category, date_added := today })
  | _ => .error .attributeError

/-! ### `run_mcp_query`'s endpoint selection (`src/app.py` 182-188) -/

def write_operations : List String :=
  ["INSERT", "UPDATE", "DELETE", "CREATE", "ALTER", "DROP"]

def read_query_endpoint : String := "http://127.0.0.1:8000/mcp/read_query"

def write_query_endpoint : String := "http://127.0.0.1:8000/mcp/write_query"

/-- The endpoint `run_mcp_query` posts to: the write endpoint exactly when
some keyword occurs in the upper-cased prompt, the (default) read endpoint
otherwise. -/
def mcp_query_endpoint (prompt : String) : String :=
  if write_operations.any (fun op => strContains (pyUpper prompt) op) then
    write_query_endpoint
  else read_query_endpoint

/-! ### `str(float)` / `str(bool)` rendering

Python prints a float as the shortest decimal literal that round-trips; the
prices this program stores and prints are short exact decimals, for which
that literal is exactly the decimal expansion of the modelled rational, with
`".0"` appended for whole numbers. -/

def digitChar : Nat → Char
  | 0 => '0' | 1 => '1' | 2 => '2' | 3 => '3' | 4 => '4'
  | 5 => '5' | 6 => '6' | 7 => '7' | 8 => '8' | 9 => '9'
  | _ => '0'

def natDigitsAux : Nat → Nat → List Char
  | 0, _ => []
  | f + 1, n =>
    if n < 10 then [digitChar n]
    else natDigitsAux f (n / 10) ++ [digitChar (n % 10)]

/-- Decimal digits of a natural number. -/
def natDigits (n : Nat) : List Char := natDigitsAux (n + 1) n

/-- Decimal digits of the fraction `rem / den` (with `rem < den`), stopping
at 17 digits (the inputs of this program terminate well before that). -/
def fracDigitsLoop : Nat → Nat → Nat → List Char
  | 0, _, _ => []
  | f + 1, rem, den =>
    if rem = 0 then []
    else digitChar (rem * 10 / den) :: fracDigitsLoop f (rem * 10 % den) den

/-- `str(float)` on the short decimals this program prints, computed from the
numerator and denominator of the (always normalized) rational. -/
def showPyFloat (q : ℚ) : String :=
  let n := q.num.natAbs
  let ip := n / q.den
  let fds := fracDigitsLoop 17 (n % q.den) q.den
  (if q.num < 0 then "-" else "") ++ String.mk (natDigits ip) ++ "." ++
    (if fds.isEmpty then "0" else String.mk fds)

/-- `str(bool)` as pandas renders it into CSV. -/
def showPyBool (b : Bool) : String := if b then "True" else "False"

/-! ### CSV export (`export_to_csv`, `src/src/utils.py` 140-150)

`DataFrame.to_csv` with default minimal quoting: a rendered cell is wrapped
in double quotes (with inner quotes doubled) exactly when it contains a
comma, a quote, a newline or a carriage return; rows are joined by the
newline terminator; the header lists the `Medicine` fields in declaration
order (`model_dump` preserves it). -/

def csvEscapeChars : List Char → List Char
  | [] => []
  | c :: rest =>
    if c = '"' then '"' :: '"' :: csvEscapeChars rest
    else c :: csvEscapeChars rest

def csvField (s : String) : String :=
  if s.toList.any (fun c => c = ',' || c = '"' || c = '\n' || c = '\r') then
    String.mk ('"' :: csvEscapeChars s.toList ++ ['"'])
  else s

/-- Join with a separator (no trailing separator). -/
def joinSep (sep : String) : List String → String
  | [] => ""
  | [x] => x
  | x :: rest => x ++ sep ++ joinSep sep rest

/-- Concatenation of a list of strings. -/
def concatAll : List String → String
  | [] => ""
  | s :: rest => s ++ concatAll rest

def medicineFieldNames : List String :=
  ["name", "brand", "price", "dosage", "form", "otc", "description",
   "side_effects", "category", "date_added"]

/-- The rendered cells of one CSV row, in field declaration order. -/
def medicineCsvCells (m : Medicine) : List String :=
  [m.name, m.brand, showPyFloat m.price, m.dosage, m.form, showPyBool m.otc,
   m.description, m.side_effects, m.category, m.date_added]

def medicineCsvRow (m : Medicine) : String :=
  joinSep "," ((medicineCsvCells m).map csvField)

/-- `export_to_csv`: `None` when the store is empty; otherwise the written
path (`os.path.join(cwd, "medicines.csv")`) together with the file content. -/
def export_to_csv (cwd : String) (db : List MedicineRow) :
    Option (String × String) :=
  match (get_all_medicines db).medicines with
  | [] => none
  | ms =>
    some (cwd ++ "/medicines.csv",
      joinSep "," medicineFieldNames ++ "\n" ++
        concatAll (ms.map (fun m => medicineCsvRow m ++ "\n")))

/-- Number of newline characters in a string; the produced file ends in a
newline, so this is its line count in the `wc -l` sense. -/
def countNl (s : String) : Nat := s.data.count '\n'

/-! ### Prolog export (`src/src/export_to_prolog.py`) -/

/-- A row as the raw SELECT in `export_to_prolog` fetches it (no entity
mapping; `otc` still an INTEGER). -/
structure PrologRow where
  name : String
  brand : String
  price : ℚ
  dosage : String
  form : String
  otc : Int
  description : String
  side_effects : String
  category : String
deriving DecidableEq

/-- `str(bool(otc)).lower()`. -/
def showOtcLower (n : Int) : String := if n != 0 then "true" else "false"

/-- The f-string of line 16: single-quoted string fields with no escaping. -/
def format_fact (r : PrologRow) : String :=
  "medicine(\x27" ++ r.name ++ "\x27, \x27" ++ r.brand ++ "\x27, " ++
    showPyFloat r.price ++ ", \x27" ++ r.dosage ++ "\x27, \x27" ++ r.form ++
    "\x27, " ++ showOtcLower r.otc ++ ", \x27" ++ r.description ++
    "\x27, \x27" ++ r.side_effects ++ "\x27, \x27" ++ r.category ++ "\x27).\n"

/-- `export_to_prolog`: the header comment line, then one fact per row. -/
def export_to_prolog (rows : List PrologRow) : String :=
  "% Prolog knowledge base for medicines\n" ++ concatAll (rows.map format_fact)

/-! ### A syntax checker for emitted Prolog facts

A reader for ground facts `name(term, ..., term).`: terms are quoted atoms
(where `''` is an escaped quote and a backslash escapes the next character),
unquoted alphanumeric atoms, or numbers.  It accepts exactly the
syntactically well-formed facts of this fragment, which is what "broken
Prolog" is measured against. -/

def skipSpaces : List Char → List Char
  | ' ' :: rest => skipSpaces rest
  | cs => cs

/-- Consume a quoted atom's body after the opening quote; `none` when no
closing quote is found. -/
def prologQuotedRest : List Char → Option (List Char)
  | [] => none
  | '\x27' :: '\x27' :: rest => prologQuotedRest rest
  | '\x27' :: rest => some rest
  | '\\' :: _ :: rest => prologQuotedRest rest
  | _ :: rest => prologQuotedRest rest

def isLowerAlpha (c : Char) : Bool := 'a' ≤ c && c ≤ 'z'

def isAtomChar (c : Char) : Bool :=
  isLowerAlpha c || isDigitChar c || c = '_' || ('A' ≤ c && c ≤ 'Z')

/-- Consume an unsigned Prolog number (digits, optional fraction). -/
def prologNumberRest (cs : List Char) : Option (List Char) :=
  let p := cs.span isDigitChar
  if p.1.isEmpty then none
  else
    match p.2 with
    | '.' :: r2 =>
      let p2 := r2.span isDigitChar
      if p2.1.isEmpty then none else some p2.2
    | _ => some p.2

/-- Consume one ground term. -/
def prologTermRest : List Char → Option (List Char)
  | [] => none
  | '\x27' :: rest => prologQuotedRest rest
  | '-' :: rest => prologNumberRest rest
  | c :: rest =>
    if isDigitChar c then prologNumberRest (c :: rest)
    else if isLowerAlpha c then some ((c :: rest).dropWhile isAtomChar)
    else none

/-- Consume `term (, term)* )`, returning what follows the closing paren. -/
def prologArgsRest : Nat → List Char → Option (List Char)
  | 0, _ => none
  | f + 1, cs =>
    match prologTermRest (skipSpaces cs) with
    | none => none
    | some r1 =>
      match skipSpaces r1 with
      | ',' :: r2 => prologArgsRest f r2
      | ')' :: r2 => some r2
      | _ => none

/-- Well-formedness of one emitted `medicine(...)` fact line. -/
def wfPrologFact (s : String) : Bool :=
  let cs := skipSpaces s.toList
  if charsStartWith "medicine(".toList cs then
    match prologArgsRest (cs.length + 1) (cs.drop 9) with
    | some r1 =>
      (match skipSpaces r1 with
       | '.' :: r2 => r2.all isWsChar
       | _ => false)
    | none => false
  else false

/-! ### Concrete fixtures used by witnesses and counterexamples -/

/-- An agent run whose final text embeds `brand_names` as a list of strings
(and no other list field). -/
def c3ListResult : AgentResult :=
  { finalResult := some (.ok (some "res \x7b\"brand_names\": [\"Advil\", \"Motrin\"], \"drug_class\": \"NSAID\"\x7d")),
    steps := none }

/-- An agent run whose final text embeds `brand_names` as a list of strings
but `dosage_forms` as a list holding a number. -/
def c3BadResult : AgentResult :=
  { finalResult := some (.ok (some "res \x7b\"brand_names\": [\"A\", \"B\"], \"dosage_forms\": [1]\x7d")),
    steps := none }

/-- The object the normalizer recovers from `c3BadResult`. -/
def c3BadFields : List (String × Json) :=
  [("brand_names", .arr [.str "A", .str "B"]), ("dosage_forms", .arr [.num 1])]

/-- An agent run with no extractable JSON on either path. -/
def c4NoJsonResult : AgentResult :=
  { finalResult := some (.ok (some "plain narrative, no braces")),
    steps := some [⟨some (.obj [("click", .str "ok")])⟩] }

/-- A successful `done` step whose text defeats both decode attempts. -/
def c5FailStep : AgentStep :=
  ⟨some (.obj [("done", .obj [("success", .bool true), ("text", .str "not json at all")])])⟩

/-- A final text whose brace-delimited substring is not valid JSON. -/
def c5NoParseResult : AgentResult :=
  { finalResult := some (.ok (some "a \x7b not json \x7d b")), steps := none }

/-- An agent run whose `done` step carries a non-string `text`, so
`re.search` raises `TypeError` outside the decode path. -/
def c5RaiseResult : AgentResult :=
  { finalResult := none,
    steps := some [⟨some (.obj [("done", .obj [("success", .bool true), ("text", .num 5)])])⟩] }

/-- A normalizer output binding only `name` and `category`. -/
def c6Fields : List (String × Json) :=
  [("name", .str "Ibuprofen"), ("category", .str "NSAID")]

/-- A record with newline-free fields. -/
def c7GoodMedicine : Medicine :=
  ⟨"Aspirin", "Bayer", mkRat 599 100, "500 mg", "tablet", true, "pain relief",
   "nausea", "NSAID", "2026-01-01"⟩

/-- A record whose description holds an embedded newline. -/
def c7BadMedicine : Medicine :=
  ⟨"Aspirin", "Bayer", mkRat 0 1, "500 mg", "tablet", false, "line1\nline2",
   "nausea", "NSAID", "2026-01-01"⟩

/-- The spec's apostrophe example: brand `Tylenol's`. -/
def c8TylenolRow : PrologRow :=
  ⟨"Tylenol", "Tylenol\x27s", mkRat 5 1, "500 mg", "tablet", 1, "pain", "nausea",
   "analgesic"⟩

/-- A brand whose apostrophes form a doubled pair, which quoted-atom syntax
reads as one escaped quote. -/
def c8DoubledRow : PrologRow :=
  ⟨"Aspirin", "ab\x27\x27cd", mkRat 5 1, "500 mg", "tablet", 0, "pain", "nausea",
   "NSAID"⟩

/-- A populated database file state. -/
def c9State : SqliteState :=
  { medicinesTable := some [encodeMedicineRow c7GoodMedicine],
    insightsTable := some [⟨"cheap", "pricing", "2026-01-02"⟩] }

/-- A recovered object with string-valued `brand_names` and `dosage_forms`. -/
def c10Fields : List (String × Json) :=
  [("brand_names", .str "Advil"), ("dosage_forms", .str "tablet"),
   ("drug_class", .str "NSAID")]

/-- The object the normalizer recovers from `c3ListResult`. -/
def c3ListFields : List (String × Json) :=
  [("brand_names", .arr [.str "Advil", .str "Motrin"]),
   ("drug_class", .str "NSAID")]

/-- The record `build_medicine` produces from `c6Fields`. -/
def c6ExpectedMedicine : Medicine :=
  ⟨"Ibuprofen", "N/A", 0, "N/A", "Various", false,
   "Information extracted from drugs.com: Ibuprofen in category NSAID",
   "Please consult your healthcare provider for side effects information.",
   "NSAID", "2026-02-03"⟩

/-- A one-row store holding `c7GoodMedicine`. -/
def c7Db : List MedicineRow := [encodeMedicineRow c7GoodMedicine]

/-- The renaming pass output on `c10Fields`: only `drug_class` is renamed. -/
def c10OutFields : List (String × Json) :=
  [("brand_names", .str "Advil"), ("dosage_forms", .str "tablet"),
   ("category", .str "NSAID")]

/-- No string field of the record contains a newline (carriage returns never
occur in this development's inputs, and only `\n` affects the line count). -/
def medNlFree (m : Medicine) : Prop :=
  '\n' ∉ m.name.data ∧ '\n' ∉ m.brand.data ∧ '\n' ∉ m.dosage.data ∧
  '\n' ∉ m.form.data ∧ '\n' ∉ m.description.data ∧
  '\n' ∉ m.side_effects.data ∧ '\n' ∉ m.category.data ∧
  '\n' ∉ m.date_added.data

instance (m : Medicine) : Decidable (medNlFree m) := by
  unfold medNlFree
  infer_instance

/-- The record `build_medicine` produces from `c10OutFields` when searching
for "advil": `brand` and `dosage` fall back to `"N/A"`. -/
def c10ExpectedMedicine : Medicine :=
  ⟨"advil", "N/A", 0, "N/A", "Various", false,
   "Information extracted from drugs.com: advil in category NSAID",
   "Please consult your healthcare provider for side effects information.",
   "NSAID", "2026-02-03"⟩

/-! ### Helper lemmas: substring containment -/

theorem strData_append (a b : String) : (a ++ b).data = a.data ++ b.data := rfl

theorem charsStartWith_iff (n : List Char) :
    ∀ h, charsStartWith n h = true ↔ ∃ r, h = n ++ r := by
  induction n with
  | nil => intro h; simp [charsStartWith]
  | cons a as ih =>
    intro h
    cases h with
    | nil =>
      simp [charsStartWith]
    | cons b bs =>
      rw [charsStartWith]
      constructor
      · intro hx
        obtain ⟨h1, h2⟩ := Bool.and_eq_true _ _ |>.mp hx
        obtain ⟨r, hr⟩ := (ih bs).mp h2
        exact ⟨r, by simp [of_decide_eq_true h1, hr]⟩
      · rintro ⟨r, hr⟩
        injection hr with hb hbs
        subst hb
        exact Bool.and_eq_true _ _ |>.mpr ⟨by simp, (ih bs).mpr ⟨r, hbs⟩⟩

theorem charsContain_iff (n : List Char) :
    ∀ h, charsContain n h = true ↔ ∃ l r, h = l ++ n ++ r := by
  intro h
  induction h with
  | nil =>
    cases n with
    | nil => simp [charsContain]
    | cons a as =>
      simp only [charsContain, List.isEmpty]
      constructor
      · intro hx; cases hx
      · rintro ⟨l, r, hr⟩
        exact absurd hr.symm (by simp)
  | cons b bs ih =>
    rw [charsContain, Bool.or_eq_true, charsStartWith_iff, ih]
    constructor
    · rintro (⟨r, hr⟩ | ⟨l, r, hr⟩)
      · exact ⟨[], r, by simp [hr]⟩
      · exact ⟨b :: l, r, by simp [hr]⟩
    · rintro ⟨l, r, hr⟩
      cases l with
      | nil => exact Or.inl ⟨r, by simpa using hr⟩
      | cons x xs =>
        injection hr with hb hbs
        exact Or.inr ⟨xs, r, hbs⟩

theorem strContains_iff (hay needle : String) :
    strContains hay needle = true ↔
      ∃ l r, hay.toList = l ++ needle.toList ++ r := by
  rw [strContains, charsContain_iff]

/-! ### Helper lemmas: dict operations -/

theorem lookupField_setField_self (fs : List (String × Json)) (k : String)
    (v : Json) : lookupField (setField fs k v) k = some v := by
  induction fs with
  | nil => simp [setField, lookupField]
  | cons p rest ih =>
    obtain ⟨k2, v2⟩ := p
    by_cases h : k2 = k
    · simp [setField, h, lookupField]
    · simp [setField, h, lookupField, ih]

theorem lookupField_setField_ne (fs : List (String × Json)) (k k' : String)
    (v : Json) (h : k' ≠ k) :
    lookupField (setField fs k v) k' = lookupField fs k' := by
  induction fs with
  | nil => simp [setField, lookupField, if_neg (Ne.symm h)]
  | cons p rest ih =>
    obtain ⟨k2, v2⟩ := p
    by_cases h2 : k2 = k
    · subst h2
      simp only [setField, if_pos rfl, lookupField, if_neg (Ne.symm h)]
    · simp only [setField, if_neg h2, lookupField]
      by_cases h3 : k2 = k'
      · simp [h3]
      · simp [h3, ih]

theorem lookupField_delField_ne (fs : List (String × Json)) (k k' : String)
    (h : k' ≠ k) : lookupField (delField fs k) k' = lookupField fs k' := by
  induction fs with
  | nil => simp [delField]
  | cons p rest ih =>
    obtain ⟨k2, v2⟩ := p
    by_cases h2 : k2 = k
    · subst h2
      simp [delField, lookupField, if_neg (Ne.symm h)]
    · simp only [delField, if_neg h2, lookupField]
      by_cases h3 : k2 = k'
      · simp [h3]
      · simp [h3, ih]

theorem lookupField_eq_none_iff (fs : List (String × Json)) (k : String) :
    lookupField fs k = none ↔ k ∉ fs.map Prod.fst := by
  induction fs with
  | nil => simp [lookupField]
  | cons p rest ih =>
    obtain ⟨k2, v2⟩ := p
    by_cases h : k2 = k
    · subst h
      simp [lookupField]
    · rw [lookupField, if_neg h, ih]
      simp only [List.map_cons, List.mem_cons]
      constructor
      · intro hk h2
        rcases h2 with h2 | h2
        · exact h h2.symm
        · exact hk h2
      · exact fun hk h2 => hk (Or.inr h2)

theorem mem_keys_setField (fs : List (String × Json)) (k k' : String)
    (v : Json) (h : k' ∈ (setField fs k v).map Prod.fst) :
    k' ∈ fs.map Prod.fst ∨ k' = k := by
  induction fs with
  | nil => simpa [setField] using h
  | cons p rest ih =>
    obtain ⟨k2, v2⟩ := p
    by_cases h2 : k2 = k
    · simp only [setField, if_pos h2] at h
      simpa using Or.inl (by simpa using h)
    · simp only [setField, if_neg h2, List.map_cons, List.mem_cons] at h
      rcases h with h | h
      · exact Or.inl (by simp [h])
      · rcases ih h with h3 | h3
        · exact Or.inl (by simp [h3])
        · exact Or.inr h3

theorem keysNodup_setField (fs : List (String × Json)) (k : String) (v : Json)
    (h : (fs.map Prod.fst).Nodup) : ((setField fs k v).map Prod.fst).Nodup := by
  induction fs with
  | nil => simp [setField]
  | cons p rest ih =>
    obtain ⟨k2, v2⟩ := p
    simp only [List.map_cons, List.nodup_cons] at h
    by_cases h2 : k2 = k
    · simpa [setField, h2, List.nodup_cons] using h
    · simp only [setField, if_neg h2, List.map_cons, List.nodup_cons]
      refine ⟨fun hmem => ?_, ih h.2⟩
      rcases mem_keys_setField rest k k2 v hmem with h3 | h3
      · exact h.1 h3
      · exact h2 h3

theorem lookupField_delField_self (fs : List (String × Json)) (k : String)
    (h : (fs.map Prod.fst).Nodup) : lookupField (delField fs k) k = none := by
  induction fs with
  | nil => simp [delField, lookupField]
  | cons p rest ih =>
    obtain ⟨k2, v2⟩ := p
    simp only [List.map_cons, List.nodup_cons] at h
    by_cases h2 : k2 = k
    · subst h2
      simp only [delField, if_pos rfl]
      exact (lookupField_eq_none_iff rest k2).mpr h.1
    · simp [delField, h2, lookupField, ih h.2]

theorem lookupField_ne_nil (fs : List (String × Json)) (k : String)
    (v : Json) (h : lookupField fs k = some v) : fs ≠ [] := by
  intro he
  subst he
  simp [lookupField] at h

/-! ### Helper lemmas: the normalizer's renaming blocks -/

theorem strElems_map_str (l : List String) :
    strElems (l.map Json.str) = .ok l := by
  induction l with
  | nil => rfl
  | cons s rest ih => simp [strElems, ih]

theorem strElems_of_all_str (xs : List Json)
    (h : ∀ x ∈ xs, ∃ s, x = Json.str s) : ∃ ss, strElems xs = .ok ss := by
  induction xs with
  | nil => exact ⟨[], rfl⟩
  | cons x rest ih =>
    obtain ⟨s, hs⟩ := h x (List.mem_cons_self x rest)
    obtain ⟨ss, hss⟩ := ih (fun y hy => h y (List.mem_cons_of_mem x hy))
    subst hs
    exact ⟨s :: ss, by simp [strElems, hss]⟩

theorem jsonTruthy_obj_of_lookup (o : List (String × Json)) (k : String)
    (v : Json) (h : lookupField o k = some v) : jsonTruthy (.obj o) = true := by
  cases o with
  | nil => simp [lookupField] at h
  | cons p rest => simp [jsonTruthy]

theorem listJoinRenameBlock_ok_lookup (src dst sep : String)
    (o : List (String × Json)) (out : Json)
    (h : listJoinRenameBlock src dst sep (.obj o) = .ok out) :
    ∃ o', out = .obj o' ∧ ∀ k, k ≠ dst → k ≠ src →
      lookupField o' k = lookupField o k := by
  simp only [listJoinRenameBlock] at h
  split at h
  · rename_i xs heq
    split at h
    · rename_i j hj
      injection h with h
      exact ⟨delField (setField o dst (.str j)) src, h.symm, fun k hk1 hk2 => by
        rw [lookupField_delField_ne _ _ _ hk2,
          lookupField_setField_ne _ _ _ _ hk1]⟩
    · exact absurd h (by simp)
  · injection h with h
    exact ⟨o, h.symm, fun k _ _ => rfl⟩

theorem listJoinRenameBlock_ok_of (src dst sep : String)
    (o : List (String × Json))
    (hs : ∀ xs, lookupField o src = some (.arr xs) →
      ∃ ss, strElems xs = .ok ss) :
    ∃ o', listJoinRenameBlock src dst sep (.obj o) = .ok (.obj o') ∧
      ∀ k, k ≠ dst → k ≠ src → lookupField o' k = lookupField o k := by
  simp only [listJoinRenameBlock]
  split
  · rename_i xs heq
    obtain ⟨ss, hss⟩ := hs xs heq
    refine ⟨delField (setField o dst (.str (String.intercalate sep ss))) src,
      by simp [joinStrElems, hss], fun k h1 h2 => ?_⟩
    rw [lookupField_delField_ne _ _ _ h2, lookupField_setField_ne _ _ _ _ h1]
  · exact ⟨o, rfl, fun k _ _ => rfl⟩

theorem listJoinRenameBlock_arr (src dst sep : String)
    (o : List (String × Json)) (l : List String)
    (hl : lookupField o src = some (.arr (l.map .str))) :
    listJoinRenameBlock src dst sep (.obj o) =
      .ok (.obj (delField (setField o dst
        (.str (String.intercalate sep l))) src)) := by
  simp [listJoinRenameBlock, hl, joinStrElems, strElems_map_str]

theorem drugClassBlock_obj (o : List (String × Json)) :
    ∃ o', drugClassBlock (.obj o) = .ok (.obj o') ∧
      ∀ k, k ≠ "category" → k ≠ "drug_class" →
        lookupField o' k = lookupField o k := by
  cases hl : lookupField o "drug_class" with
  | some v =>
    refine ⟨delField (setField o "category" v) "drug_class",
      by simp [drugClassBlock, hl], fun k h1 h2 => ?_⟩
    rw [lookupField_delField_ne _ _ _ h2, lookupField_setField_ne _ _ _ _ h1]
  | none => exact ⟨o, by simp [drugClassBlock, hl], fun k _ _ => rfl⟩

theorem genericNameBlock_obj (o : List (String × Json)) :
    ∃ o', genericNameBlock (.obj o) = .ok (.obj o') ∧
      ∀ k, k ≠ "name" → k ≠ "generic_name" →
        lookupField o' k = lookupField o k := by
  cases hl : lookupField o "generic_name" with
  | some v =>
    by_cases hn : hasKey o "name"
    · refine ⟨delField o "generic_name", by simp [genericNameBlock, hl, hn],
        fun k h1 h2 => ?_⟩
      rw [lookupField_delField_ne _ _ _ h2]
    · refine ⟨delField (setField o "name" v) "generic_name",
        by simp [genericNameBlock, hl, hn], fun k h1 h2 => ?_⟩
      rw [lookupField_delField_ne _ _ _ h2, lookupField_setField_ne _ _ _ _ h1]
  | none => exact ⟨o, by simp [genericNameBlock, hl], fun k _ _ => rfl⟩

/-! ### Claim C1 -/

/-- Claim C1: for every Medicine `m` and store state, `add_medicine m`
followed by `get_all_medicines` yields a result set containing a row equal to
`m` in every one of the ten fields, the boolean `otc` surviving its integer
0/1 encoding. -/
theorem C1_insert_readAll_roundtrip (db : List MedicineRow) (m : Medicine) :
    ∃ m' ∈ (get_all_medicines (add_medicine m db)).medicines,
      m'.name = m.name ∧ m'.brand = m.brand ∧ m'.price = m.price ∧
      m'.dosage = m.dosage ∧ m'.form = m.form ∧ m'.otc = m.otc ∧
      m'.description = m.description ∧ m'.side_effects = m.side_effects ∧
      m'.category = m.category ∧ m'.date_added = m.date_added := by
  refine ⟨decodeMedicineRow (encodeMedicineRow m), ?_, ?_⟩
  · exact List.mem_map_of_mem _ (by simp [add_medicine])
  · cases hm : m.otc <;>
      simp [decodeMedicineRow, encodeMedicineRow, hm]

/-! ### Claim C2 -/

/-- Claim C2: the relay posts to the write endpoint iff the upper-cased SQL
text contains one of the six keywords as a substring, and to the read
endpoint otherwise; the three example queries route as the claim says (the
third because `INSERT`/`DROP` occur inside it, string literal or not). -/
theorem C2_query_routing (s : String) :
    (mcp_query_endpoint s = write_query_endpoint ↔
      ∃ op ∈ write_operations, ∃ l r,
        (pyUpper s).toList = l ++ op.toList ++ r) ∧
    (mcp_query_endpoint s = read_query_endpoint ↔
      ¬ ∃ op ∈ write_operations, ∃ l r,
        (pyUpper s).toList = l ++ op.toList ++ r) ∧
    mcp_query_endpoint "SELECT * FROM medicines" = read_query_endpoint ∧
    mcp_query_endpoint "update medicines set price=1" = write_query_endpoint ∧
    mcp_query_endpoint "INSERT INTO log VALUES (\x27DROP the mic\x27)" =
      write_query_endpoint := by
  have hne : write_query_endpoint ≠ read_query_endpoint := by decide
  have key : (write_operations.any
        (fun op => strContains (pyUpper s) op)) = true ↔
      ∃ op ∈ write_operations, ∃ l r,
        (pyUpper s).toList = l ++ op.toList ++ r := by
    rw [List.any_eq_true]
    constructor
    · rintro ⟨op, hop, hc⟩
      exact ⟨op, hop, (strContains_iff _ _).mp hc⟩
    · rintro ⟨op, hop, h⟩
      exact ⟨op, hop, (strContains_iff _ _).mpr h⟩
  refine ⟨?_, ?_, by decide, by decide, by decide⟩
  · rw [mcp_query_endpoint]
    by_cases hc : (write_operations.any
        (fun op => strContains (pyUpper s) op)) = true
    · rw [if_pos hc]
      exact ⟨fun _ => key.mp hc, fun _ => rfl⟩
    · rw [if_neg hc]
      exact ⟨fun h => absurd h (Ne.symm hne), fun h => absurd (key.mpr h) hc⟩
  · rw [mcp_query_endpoint]
    by_cases hc : (write_operations.any
        (fun op => strContains (pyUpper s) op)) = true
    · rw [if_pos hc]
      exact ⟨fun h => absurd h hne, fun h => absurd (key.mp hc) h⟩
    · rw [if_neg hc]
      exact ⟨fun _ h => absurd (key.mpr h) hc, fun _ => rfl⟩

/-! ### Claim C4 -/

/-- Claim C4: when neither extraction path recovers any JSON, the normalizer
returns `None` (and, its result type being total, raises nothing). -/
theorem C4_no_json_returns_none (r : AgentResult)
    (h : ∀ v, extractData r = .ok v → v = Json.null) :
    process_result r = .null := by
  unfold process_result processBody
  cases he : extractData r with
  | error e => simp
  | ok v =>
    have hv := h v he
    subst hv
    simp [jsonTruthy]

/-- Witness for C4 at a concrete run with no parseable JSON on either path. -/
theorem C4_witness : process_result c4NoJsonResult = .null :=
  C4_no_json_returns_none c4NoJsonResult (fun v hv => by
    rw [show extractData c4NoJsonResult = .ok Json.null from rfl] at hv
    injection hv with hv
    exact hv.symm)

/-! ### Claim C6 -/

/-- Claim C6: every record `search_medicine_info` builds is fully populated
(`Medicine` is a total record type), with `price = 0.0`, `otc = False`,
`form = "Various"`, the fixed advisory `side_effects` string, a description
synthesized from the recovered name and category, and `date_added` set to
the normalization-time date. -/
theorem C6_defaults (result : Json) (mn today : String) (m : Medicine)
    (h : build_medicine result mn today = .ok m) :
    m.price = 0 ∧ m.otc = false ∧ m.form = "Various" ∧
    m.side_effects =
      "Please consult your healthcare provider for side effects information." ∧
    m.date_added = today ∧
    m.description = "Information extracted from drugs.com: " ++ m.name ++
      " in category " ++ m.category := by
  cases result with
  | obj fs =>
    simp only [build_medicine] at h
    cases h1 : asStr ((lookupField fs "name").getD (.str mn)) with
    | error e => simp [h1] at h
    | ok name =>
      simp only [h1] at h
      cases h2 : asStr ((lookupField fs "brand").getD (.str "N/A")) with
      | error e => simp [h2] at h
      | ok brand =>
        simp only [h2] at h
        cases h3 : asStr ((lookupField fs "category").getD (.str "N/A")) with
        | error e => simp [h3] at h
        | ok category =>
          simp only [h3] at h
          cases h4 : asStr ((lookupField fs "dosage").getD (.str "N/A")) with
          | error e => simp [h4] at h
          | ok dosage =>
            simp only [h4] at h
            injection h with h
            subst h
            simp
  | null => exact Except.noConfusion h
  | bool b => exact Except.noConfusion h
  | num q => exact Except.noConfusion h
  | str s => exact Except.noConfusion h
  | arr xs => exact Except.noConfusion h

/-- Witness for C6 on a concrete recovered mapping holding only `name` and
`category`. -/
theorem C6_witness :
    c6ExpectedMedicine.price = 0 ∧ c6ExpectedMedicine.otc = false ∧
    c6ExpectedMedicine.form = "Various" ∧
    c6ExpectedMedicine.side_effects =
      "Please consult your healthcare provider for side effects information." ∧
    c6ExpectedMedicine.date_added = "2026-02-03" ∧
    c6ExpectedMedicine.description =
      "Information extracted from drugs.com: " ++ c6ExpectedMedicine.name ++
        " in category " ++ c6ExpectedMedicine.category :=
  C6_defaults (.obj c6Fields) "ibuprofen" "2026-02-03" c6ExpectedMedicine rfl

/-! ### Claim C9 -/

/-- Claim C9: `initialize_database` run twice against an existing populated
database leaves every row of both tables unchanged — table creation is
create-if-absent only and touches no data. -/
theorem C9_init_twice_preserves_rows (s : SqliteState)
    (ms : List MedicineRow) (ins : List InsightRow)
    (h1 : s.medicinesTable = some ms) (h2 : s.insightsTable = some ins) :
    (init_database (init_database s)).medicinesTable = some ms ∧
    (init_database (init_database s)).insightsTable = some ins := by
  simp [init_database, createTableIfAbsent, h1, h2]

/-- Witness for C9 on a concrete populated state. -/
theorem C9_witness :
    (init_database (init_database c9State)).medicinesTable =
      some [encodeMedicineRow c7GoodMedicine] ∧
    (init_database (init_database c9State)).insightsTable =
      some [⟨"cheap", "pricing", "2026-01-02"⟩] :=
  C9_init_twice_preserves_rows c9State _ _ rfl rfl

theorem charsContain_append_left (n as bs : List Char)
    (h : charsContain n bs = true) : charsContain n (as ++ bs) = true := by
  induction as with
  | nil => simpa
  | cons a as ih =>
    rw [List.cons_append, charsContain, Bool.or_eq_true]
    exact Or.inr ih

/-! ### Claim C3 -/

/-- Claim C3 (amended): when the normalizer recovers a JSON object binding
`brand_names` to a list of strings — provided any list bound to
`dosage_forms` also holds only strings, since a non-string there makes the
join raise and the normalizer return nothing — the output has `brand` equal
to the `", "`-join of that list and no `brand_names` key.  (A recovered
Python dict has unique keys, stated here as `Nodup`.) -/
theorem C3_brand_names_join (r : AgentResult) (o : List (String × Json))
    (l : List String)
    (hext : extractData r = .ok (.obj o))
    (hnd : (o.map Prod.fst).Nodup)
    (hbn : lookupField o "brand_names" = some (.arr (l.map Json.str)))
    (hdf : ∀ xs, lookupField o "dosage_forms" = some (.arr xs) →
      ∀ x ∈ xs, ∃ s, x = Json.str s) :
    ∃ o', process_result r = .obj o' ∧
      lookupField o' "brand" = some (.str (String.intercalate ", " l)) ∧
      lookupField o' "brand_names" = none := by
  have hb1 : brandNamesBlock (.obj o) =
      .ok (.obj (delField (setField o "brand"
        (.str (String.intercalate ", " l))) "brand_names")) :=
    listJoinRenameBlock_arr "brand_names" "brand" ", " o l hbn
  set o1 := delField (setField o "brand"
    (.str (String.intercalate ", " l))) "brand_names" with ho1
  have h1brand : lookupField o1 "brand" =
      some (.str (String.intercalate ", " l)) := by
    rw [ho1, lookupField_delField_ne _ _ _ (by decide),
      lookupField_setField_self]
  have h1bn : lookupField o1 "brand_names" = none :=
    lookupField_delField_self _ _ (keysNodup_setField o _ _ hnd)
  have h1df : lookupField o1 "dosage_forms" = lookupField o "dosage_forms" := by
    rw [ho1, lookupField_delField_ne _ _ _ (by decide),
      lookupField_setField_ne _ _ _ _ (by decide)]
  obtain ⟨o2, hb2, h2pres⟩ :=
    listJoinRenameBlock_ok_of "dosage_forms" "dosage" "; " o1
      (fun xs hxs => strElems_of_all_str xs (hdf xs (h1df ▸ hxs)))
  have hb2' : dosageFormsBlock (.obj o1) = .ok (.obj o2) := hb2
  obtain ⟨o3, hb3, h3pres⟩ := drugClassBlock_obj o2
  obtain ⟨o4, hb4, h4pres⟩ := genericNameBlock_obj o3
  have hpd : processData (.obj o) = .ok (.obj o4) := by
    simp only [processData, hb1, hb2', hb3, hb4]
  have htr : jsonTruthy (.obj o) = true :=
    jsonTruthy_obj_of_lookup o _ _ hbn
  have hpb : processBody r = .ok (.obj o4) := by
    simp only [processBody, hext, htr, if_true, hpd]
  refine ⟨o4, by simp only [process_result, hpb], ?_, ?_⟩
  · rw [h4pres _ (by decide) (by decide), h3pres _ (by decide) (by decide),
      h2pres _ (by decide) (by decide), h1brand]
  · rw [h4pres _ (by decide) (by decide), h3pres _ (by decide) (by decide),
      h2pres _ (by decide) (by decide), h1bn]

/-- Witness for the amended C3 at a run whose final text embeds
`brand_names = ["Advil", "Motrin"]`. -/
theorem C3_witness :
    ∃ o', process_result c3ListResult = .obj o' ∧
      lookupField o' "brand" =
        some (.str (String.intercalate ", " ["Advil", "Motrin"])) ∧
      lookupField o' "brand_names" = none :=
  C3_brand_names_join c3ListResult c3ListFields ["Advil", "Motrin"] rfl
    (by decide) rfl
    (fun xs h => by
      rw [show lookupField c3ListFields "dosage_forms" = (none : Option Json)
        from rfl] at h
      exact Option.noConfusion h)

/-- Counterexample to C3 as stated: this run's recovered object binds
`brand_names` to the string list `["A", "B"]`, yet the normalizer outputs
`None` — no mapping with a `brand` key at all — because the `"; "`-join of
the non-string list under `dosage_forms` raises `TypeError`, which the outer
handler turns into `None`. -/
theorem C3_counterexample :
    extractData c3BadResult = .ok (.obj c3BadFields) ∧
    lookupField c3BadFields "brand_names" =
      some (.arr (["A", "B"].map Json.str)) ∧
    process_result c3BadResult = .null :=
  ⟨rfl, rfl, rfl⟩

/-! ### Claim C5 -/

/-- Claim C5 (amended): every JSON-decode failure is swallowed — a failing
final text leaves `data = None` and a failing `done`-step candidate just
moves the scan to the next step — and an exception raised outside the decode
path is also caught by the normalizer's outer handler, which logs it and
returns `None` instead of propagating it to the caller. -/
theorem C5_failure_policy :
    (∀ (o d : List (String × Json)) (t : String) (rest : List AgentStep),
       lookupField o "done" = some (.obj d) →
       jsonTruthy ((lookupField d "success").getD .null) = true →
       lookupField d "text" = some (.str t) →
       decodeCandidate t = none →
       stepScan (⟨some (.obj o)⟩ :: rest) = stepScan rest) ∧
    (∀ (r : AgentResult) (s : String),
       r.finalResult = some (.ok (some s)) →
       (∀ sub, extractJsonSubstr s = some sub → jsonLoads sub = none) →
       finalTextData r = .ok .null) ∧
    (∀ (r : AgentResult) (e : PyErr),
       processBody r = .error e → process_result r = .null) := by
  refine ⟨?_, ?_, ?_⟩
  · intro o d t rest hdone hsucc htext hdec
    simp only [stepScan, hdone, hsucc, if_true, htext, hdec]
  · intro r s hfr hsub
    simp only [finalTextData, hfr]
    by_cases hs : s = ""
    · rw [if_pos hs]
    · rw [if_neg hs]
      cases hx : extractJsonSubstr s with
      | none => rfl
      | some sub => simp only [hsub sub hx]
  · intro r e h
    simp [process_result, h]

/-- Witness for the amended C5: a decode-failing step is skipped in favour of
the rest of the scan, a brace-delimited-but-unparseable final text yields
`data = None`, and a run whose body raises still returns `None`. -/
theorem C5_witness :
    stepScan [c5FailStep] = stepScan [] ∧
    finalTextData c5NoParseResult = .ok .null ∧
    process_result c5RaiseResult = .null := by
  refine ⟨?_, ?_, ?_⟩
  · exact C5_failure_policy.1
      [("done", .obj [("success", .bool true), ("text", .str "not json at all")])]
      [("success", .bool true), ("text", .str "not json at all")]
      "not json at all" [] rfl rfl rfl rfl
  · exact C5_failure_policy.2.1 c5NoParseResult "a \x7b not json \x7d b" rfl
      (fun sub hsub => by
        rw [show extractJsonSubstr "a \x7b not json \x7d b" =
          some "\x7b not json \x7d" from rfl] at hsub
        injection hsub with hsub
        rw [← hsub]
        rfl)
  · exact C5_failure_policy.2.2 c5RaiseResult .typeError rfl

/-- Counterexample to C5 as stated: in this run the `done` step's `text` is
the number 5, so `re.search` raises `TypeError` outside the JSON-decode path
— the body errors — yet `_process_result` returns `None` to its caller
instead of letting the exception propagate. -/
theorem C5_counterexample :
    processBody c5RaiseResult = .error .typeError ∧
    process_result c5RaiseResult = .null :=
  ⟨rfl, rfl⟩

/-! ### Claim C10 -/

set_option maxRecDepth 8192

/-- Claim C10: when `brand_names` (resp. `dosage_forms`) is bound to a string
rather than a list, the renaming pass leaves that key unchanged and does not
touch `brand` (resp. `dosage`) — the renaming fires only for list values —
even though the task string requests string values for these keys; and the
caller's `result.get` then falls back to `"N/A"` for the missing
`brand`/`dosage` fields. -/
theorem C10_string_valued_fields :
    (∀ (o : List (String × Json)) (out : Json) (s : String),
       processData (.obj o) = .ok out →
       lookupField o "brand_names" = some (.str s) →
       ∃ o', out = .obj o' ∧
         lookupField o' "brand_names" = some (.str s) ∧
         lookupField o' "brand" = lookupField o "brand") ∧
    (∀ (o : List (String × Json)) (out : Json) (s : String),
       processData (.obj o) = .ok out →
       lookupField o "dosage_forms" = some (.str s) →
       ∃ o', out = .obj o' ∧
         lookupField o' "dosage_forms" = some (.str s) ∧
         lookupField o' "dosage" = lookupField o "dosage") ∧
    (∀ mn, strContains (build_task mn) "\"brand_names\": \"\"" = true) ∧
    (∀ (o : List (String × Json)) (mn today : String) (m : Medicine),
       lookupField o "brand" = none →
       lookupField o "dosage" = none →
       build_medicine (.obj o) mn today = .ok m →
       m.brand = "N/A" ∧ m.dosage = "N/A") := by
  refine ⟨?_, ?_, ?_, ?_⟩
  · intro o out s h hbn
    have hb1 : brandNamesBlock (.obj o) = .ok (.obj o) := by
      simp [brandNamesBlock, listJoinRenameBlock, hbn]
    simp only [processData, hb1] at h
    cases hb2 : dosageFormsBlock (.obj o) with
    | error e =>
      simp only [hb2] at h
      exact Except.noConfusion h
    | ok d2 =>
      simp only [hb2] at h
      obtain ⟨o2, rfl, pres2⟩ :=
        listJoinRenameBlock_ok_lookup "dosage_forms" "dosage" "; " o d2 hb2
      obtain ⟨o3, hb3, pres3⟩ := drugClassBlock_obj o2
      simp only [hb3] at h
      obtain ⟨o4, hb4, pres4⟩ := genericNameBlock_obj o3
      simp only [hb4] at h
      injection h with h
      subst h
      refine ⟨o4, rfl, ?_, ?_⟩
      · rw [pres4 _ (by decide) (by decide), pres3 _ (by decide) (by decide),
          pres2 _ (by decide) (by decide), hbn]
      · rw [pres4 _ (by decide) (by decide), pres3 _ (by decide) (by decide),
          pres2 _ (by decide) (by decide)]
  · intro o out s h hdf
    simp only [processData] at h
    cases hb1 : brandNamesBlock (.obj o) with
    | error e =>
      simp only [hb1] at h
      exact Except.noConfusion h
    | ok d1 =>
      simp only [hb1] at h
      obtain ⟨o1, rfl, pres1⟩ :=
        listJoinRenameBlock_ok_lookup "brand_names" "brand" ", " o d1 hb1
      have hdf1 : lookupField o1 "dosage_forms" = some (.str s) := by
        rw [pres1 _ (by decide) (by decide), hdf]
      have hb2 : dosageFormsBlock (.obj o1) = .ok (.obj o1) := by
        simp [dosageFormsBlock, listJoinRenameBlock, hdf1]
      simp only [hb2] at h
      obtain ⟨o3, hb3, pres3⟩ := drugClassBlock_obj o1
      simp only [hb3] at h
      obtain ⟨o4, hb4, pres4⟩ := genericNameBlock_obj o3
      simp only [hb4] at h
      injection h with h
      subst h
      refine ⟨o4, rfl, ?_, ?_⟩
      · rw [pres4 _ (by decide) (by decide), pres3 _ (by decide) (by decide),
          hdf1]
      · rw [pres4 _ (by decide) (by decide), pres3 _ (by decide) (by decide),
          pres1 _ (by decide) (by decide)]
  · intro mn
    rw [strContains, build_task]
    have hsplit : ((taskTextA ++ mn ++ taskTextB) : String).toList =
        (taskTextA ++ mn).data ++ taskTextB.data := strData_append _ _
    rw [hsplit]
    exact charsContain_append_left _ _ _ (by decide)
  · intro o mn today m hbr hdo h
    simp only [build_medicine] at h
    simp only [hbr, hdo, Option.getD_none] at h
    have ha : asStr (.str "N/A") = .ok "N/A" := rfl
    simp only [ha] at h
    cases h1 : asStr ((lookupField o "name").getD (.str mn)) with
    | error e =>
      simp only [h1] at h
      exact Except.noConfusion h
    | ok name =>
      simp only [h1] at h
      cases h3 : asStr ((lookupField o "category").getD (.str "N/A")) with
      | error e =>
        simp only [h3] at h
        exact Except.noConfusion h
      | ok category =>
        simp only [h3] at h
        injection h with h
        subst h
        exact ⟨rfl, rfl⟩

/-- Witness for C10 on a concrete object carrying string-valued `brand_names`
and `dosage_forms`, and a caller fallback at its renamed output. -/
theorem C10_witness :
    (∃ o', (Json.obj c10OutFields) = .obj o' ∧
       lookupField o' "brand_names" = some (.str "Advil") ∧
       lookupField o' "brand" = lookupField c10Fields "brand") ∧
    (∃ o', (Json.obj c10OutFields) = .obj o' ∧
       lookupField o' "dosage_forms" = some (.str "tablet") ∧
       lookupField o' "dosage" = lookupField c10Fields "dosage") ∧
    strContains (build_task "ibuprofen") "\"brand_names\": \"\"" = true ∧
    (c10ExpectedMedicine.brand = "N/A" ∧ c10ExpectedMedicine.dosage = "N/A") :=
  ⟨C10_string_valued_fields.1 c10Fields (.obj c10OutFields) "Advil" rfl rfl,
   C10_string_valued_fields.2.1 c10Fields (.obj c10OutFields) "tablet" rfl rfl,
   C10_string_valued_fields.2.2.1 "ibuprofen",
   C10_string_valued_fields.2.2.2 c10OutFields "advil" "2026-02-03"
     c10ExpectedMedicine rfl rfl rfl⟩

/-! ### Helper lemmas: newline counting in the CSV model -/

theorem countNl_append (a b : String) :
    countNl (a ++ b) = countNl a + countNl b := by
  simp [countNl, strData_append, List.count_append]

theorem countNl_eq_zero (s : String) (h : '\n' ∉ s.data) : countNl s = 0 :=
  List.count_eq_zero.mpr h

theorem mem_csvEscapeChars (c : Char) (cs : List Char)
    (h : c ∈ csvEscapeChars cs) : c ∈ cs ∨ c = '"' := by
  induction cs with
  | nil => simp [csvEscapeChars] at h
  | cons a rest ih =>
    rw [csvEscapeChars] at h
    by_cases ha : a = '"'
    · rw [if_pos ha] at h
      simp only [List.mem_cons] at h
      rcases h with h | h | h
      · exact Or.inr h
      · exact Or.inr h
      · rcases ih h with h2 | h2
        · exact Or.inl (List.mem_cons_of_mem a h2)
        · exact Or.inr h2
    · rw [if_neg ha] at h
      simp only [List.mem_cons] at h
      rcases h with h | h
      · exact Or.inl (h ▸ List.mem_cons_self a rest)
      · rcases ih h with h2 | h2
        · exact Or.inl (List.mem_cons_of_mem a h2)
        · exact Or.inr h2

theorem csvField_nlFree (s : String) (h : '\n' ∉ s.data) :
    '\n' ∉ (csvField s).data := by
  rw [csvField]
  split
  · intro hm
    replace hm : '\n' ∈ '"' :: (csvEscapeChars s.toList ++ ['"']) := hm
    rcases List.mem_cons.mp hm with hm | hm
    · exact absurd hm (by decide)
    · rcases List.mem_append.mp hm with hm | hm
      · rcases mem_csvEscapeChars _ _ hm with h2 | h2
        · exact h h2
        · exact absurd h2 (by decide)
      · exact absurd (List.mem_singleton.mp hm) (by decide)
  · exact h

theorem digitChar_ne_nl (d : Nat) : digitChar d ≠ '\n' := by
  unfold digitChar
  split <;> decide

theorem natDigitsAux_nlFree (f : Nat) : ∀ n, '\n' ∉ natDigitsAux f n := by
  induction f with
  | zero => intro n; simp [natDigitsAux]
  | succ f ih =>
    intro n
    rw [natDigitsAux]
    split
    · intro hm
      exact digitChar_ne_nl n (List.mem_singleton.mp hm).symm
    · intro hm
      rcases List.mem_append.mp hm with hm | hm
      · exact ih _ hm
      · exact digitChar_ne_nl _ (List.mem_singleton.mp hm).symm

theorem fracDigitsLoop_nlFree (f : Nat) :
    ∀ rem den, '\n' ∉ fracDigitsLoop f rem den := by
  induction f with
  | zero => intro rem den; simp [fracDigitsLoop]
  | succ f ih =>
    intro rem den
    rw [fracDigitsLoop]
    split
    · simp
    · intro hm
      rcases List.mem_cons.mp hm with hm | hm
      · exact digitChar_ne_nl _ hm.symm
      · exact ih _ _ hm

theorem showPyFloat_nlFree (q : ℚ) : '\n' ∉ (showPyFloat q).data := by
  rw [showPyFloat]
  intro hm
  simp only [strData_append, List.mem_append] at hm
  rcases hm with ((hm | hm) | hm) | hm
  · split at hm
    · exact absurd hm (by decide)
    · exact absurd hm (by decide)
  · exact natDigitsAux_nlFree _ _ hm
  · exact absurd hm (by decide)
  · split at hm
    · exact absurd hm (by decide)
    · exact fracDigitsLoop_nlFree _ _ _ hm

theorem showPyBool_nlFree (b : Bool) : '\n' ∉ (showPyBool b).data := by
  cases b <;> decide

theorem joinSep_nlFree (sep : String) (hsep : '\n' ∉ sep.data) :
    ∀ xs, (∀ x ∈ xs, '\n' ∉ x.data) → '\n' ∉ (joinSep sep xs).data := by
  intro xs
  induction xs with
  | nil => intro _; simp [joinSep]
  | cons x rest ih =>
    cases rest with
    | nil =>
      intro hall
      exact hall x (List.mem_singleton.mpr rfl)
    | cons y ys =>
      intro hall
      have hj : joinSep sep (x :: y :: ys) =
          x ++ sep ++ joinSep sep (y :: ys) := rfl
      rw [hj]
      intro hm
      simp only [strData_append, List.mem_append] at hm
      rcases hm with (hm | hm) | hm
      · exact hall x (List.mem_cons_self x _) hm
      · exact hsep hm
      · exact ih (fun z hz => hall z (List.mem_cons_of_mem x hz)) hm

theorem medicineCsvRow_nlFree (m : Medicine) (h : medNlFree m) :
    '\n' ∉ (medicineCsvRow m).data := by
  obtain ⟨h1, h2, h3, h4, h5, h6, h7, h8⟩ := h
  rw [medicineCsvRow]
  refine joinSep_nlFree "," (by decide) _ ?_
  intro x hx
  rcases List.mem_map.mp hx with ⟨c, hc, rfl⟩
  refine csvField_nlFree c ?_
  simp only [medicineCsvCells, List.mem_cons, List.mem_singleton] at hc
  rcases hc with rfl | rfl | rfl | rfl | rfl | rfl | rfl | rfl | rfl | hc
  · exact h1
  · exact h2
  · exact showPyFloat_nlFree m.price
  · exact h3
  · exact h4
  · exact showPyBool_nlFree m.otc
  · exact h5
  · exact h6
  · exact h7
  · rcases hc with rfl | hc
    · exact h8
    · simp at hc

theorem countNl_row (m : Medicine) (h : medNlFree m) :
    countNl (medicineCsvRow m ++ "\n") = 1 := by
  rw [countNl_append, countNl_eq_zero _ (medicineCsvRow_nlFree m h)]
  decide

theorem concatAll_rows_count (ms : List Medicine)
    (h : ∀ m ∈ ms, medNlFree m) :
    countNl (concatAll (ms.map (fun m => medicineCsvRow m ++ "\n"))) =
      ms.length := by
  induction ms with
  | nil => simp [concatAll, countNl]
  | cons m rest ih =>
    rw [List.map_cons, concatAll, countNl_append,
      countNl_row m (h m (List.mem_cons_self m rest)),
      ih (fun z hz => h z (List.mem_cons_of_mem m hz))]
    simp [Nat.add_comm]

/-! ### Claim C7 -/

/-- Claim C7 (amended): CSV export of an empty store returns nothing and
produces no file; for N stored records none of whose fields contains a
newline, it returns the `medicines.csv` path under the working directory and
the written file has N+1 lines — the header line, listing the `Medicine`
fields in declaration order, plus one line per record.  (A field with an
embedded newline is quoted but still spans extra physical lines.) -/
theorem C7_csv_export :
    (∀ cwd, export_to_csv cwd [] = none) ∧
    (∀ cwd (db : List MedicineRow), db ≠ [] →
       (∀ m ∈ (get_all_medicines db).medicines, medNlFree m) →
       ∃ content,
         export_to_csv cwd db = some (cwd ++ "/medicines.csv", content) ∧
         countNl content = db.length + 1 ∧
         ∃ body, content = joinSep "," medicineFieldNames ++ "\n" ++ body) := by
  refine ⟨fun cwd => rfl, ?_⟩
  intro cwd db hne hnl
  cases hm : (get_all_medicines db).medicines with
  | nil =>
    exfalso
    apply hne
    simpa [get_all_medicines] using hm
  | cons m0 rest =>
    refine ⟨joinSep "," medicineFieldNames ++ "\n" ++
      concatAll ((m0 :: rest).map (fun m => medicineCsvRow m ++ "\n")),
      ?_, ?_, ?_⟩
    · simp only [export_to_csv, hm]
    · rw [countNl_append, countNl_append,
        concatAll_rows_count _ (hm ▸ hnl)]
      have hlen : (m0 :: rest).length = db.length := by
        rw [← hm]
        simp [get_all_medicines]
      rw [hlen]
      have hh : countNl (joinSep "," medicineFieldNames) = 0 := by decide
      have ht : countNl "\n" = 1 := by decide
      rw [hh, ht]
      omega
    · exact ⟨_, rfl⟩

/-- Witness for the amended C7 on a one-record store with newline-free
fields: the file has 2 lines. -/
theorem C7_witness :
    ∃ content,
      export_to_csv "/w" c7Db = some ("/w" ++ "/medicines.csv", content) ∧
      countNl content = c7Db.length + 1 ∧
      ∃ body, content = joinSep "," medicineFieldNames ++ "\n" ++ body :=
  C7_csv_export.2 "/w" c7Db (by simp [c7Db]) (by decide)

/-- Counterexample to C7 as stated: one stored record whose description field
contains a newline produces a file of 3 lines, not 1 + 1 = 2 — the cell is
quoted, but the newline inside the quotes still ends a physical line. -/
theorem C7_counterexample :
    (export_to_csv "/w" [encodeMedicineRow c7BadMedicine]).map
      (fun p => countNl p.2) = some 3 ∧ (3 : Nat) ≠ 1 + 1 :=
  ⟨by decide, by decide⟩

/-! ### Claim C8 -/

/-- Claim C8 (amended): Prolog export writes the header comment line and then
exactly one `medicine(...)` fact per stored row, string fields single-quoted
with no escaping of embedded quotes; the spec's example — a brand holding the
unpaired apostrophe of `Tylenol's` — therefore yields a syntactically broken
fact.  (Not every apostrophe breaks the output: see the counterexample.) -/
theorem C8_prolog_export :
    (∀ r : PrologRow, format_fact r =
       "medicine(\x27" ++ r.name ++ "\x27, \x27" ++ r.brand ++ "\x27, " ++
         showPyFloat r.price ++ ", \x27" ++ r.dosage ++ "\x27, \x27" ++
         r.form ++ "\x27, " ++ showOtcLower r.otc ++ ", \x27" ++
         r.description ++ "\x27, \x27" ++ r.side_effects ++ "\x27, \x27" ++
         r.category ++ "\x27).\n") ∧
    (∀ rows, export_to_prolog rows =
       "% Prolog knowledge base for medicines\n" ++
         concatAll (rows.map format_fact)) ∧
    c8TylenolRow.brand = "Tylenol\x27s" ∧
    wfPrologFact (format_fact c8TylenolRow) = false :=
  ⟨fun r => rfl, fun rows => rfl, rfl, by decide⟩

/-- Counterexample to C8 as stated: this row's brand contains apostrophes,
yet the emitted fact is syntactically valid Prolog, because the doubled
apostrophe is exactly quoted-atom escaping — "any record whose name or brand
contains an apostrophe yields a broken fact" does not hold universally. -/
theorem C8_counterexample :
    strContains c8DoubledRow.brand "\x27" = true ∧
    wfPrologFact (format_fact c8DoubledRow) = true :=
  ⟨by decide, by decide⟩
